import Mathlib

set_option maxRecDepth 40000

/-!
Verification of the BPPS instance generator
(`src/generator/bpps_instance_generator.py`).

The generator is shallowly embedded: Python's `random` module is modelled by
an abstract deterministic stream `st : Int → Nat → Nat`, where `st seed i` is
the i-th raw draw produced after `random.seed(seed)`.  `random.randint(a, b)`
maps the raw draw into `[a, b]` (and fails, like Python's `ValueError`, when
`a > b`).  Exceptions are modelled by `Option`: a `none` result is an
exception propagating to the caller.  Python `float` fractions are modelled
by `ℚ`; dictionaries keyed by `0..m-1` are modelled by lists of length `m`.
-/

set_option autoImplicit false

namespace BPPS

/-- Model of Python's `random.randint(a, b)` at stream position `c` after
seeding with `seed`: returns a value in `[a, b]` and the advanced position,
or `none` (a `ValueError`) when `a > b`. -/
def randint (st : Int → Nat → Nat) (seed : Int) (a b : Int) (c : Nat) :
    Option (Int × Nat) :=
  if a ≤ b then some (a + ((st seed c : Int)) % (b - a + 1), c + 1) else none

/-- `cnt` successive `randint a b` draws (the dict comprehensions over
`range(m)` at lines 128 and 143-145 of the source). -/
def drawList (st : Int → Nat → Nat) (seed : Int) (a b : Int) :
    Nat → Nat → Option (List Int × Nat)
  | 0, c => some ([], c)
  | cnt + 1, c =>
    match randint st seed a b c with
    | none => none
    | some (x, c1) =>
      match drawList st seed a b cnt c1 with
      | none => none
      | some (xs, c2) => some (x :: xs, c2)

/-- `classes[i].append(w)` (line 135 of the source). -/
def appendAt : List (List Int) → Nat → Int → List (List Int)
  | [], _, _ => []
  | l :: ls, 0, w => (l ++ [w]) :: ls
  | l :: ls, i + 1, w => l :: appendAt ls i w

/-- The item-assignment loop (lines 132-135 of the source): for each item,
draw a class index from `[0, m-1]`, then an item weight from
`[wmin, wmax]`, and append the weight to that class. -/
def itemLoop (st : Int → Nat → Nat) (seed : Int) (m : Nat) (wmin wmax : Int) :
    Nat → List (List Int) → Nat → Option (List (List Int) × Nat)
  | 0, cls, c => some (cls, c)
  | cnt + 1, cls, c =>
    match randint st seed 0 ((m : Int) - 1) c with
    | none => none
    | some (cid, c1) =>
      match randint st seed wmin wmax c1 with
      | none => none
      | some (w, c2) => itemLoop st seed m wmin wmax cnt (appendAt cls cid.toNat w) c2

/-- Python's `min` over a list of naturals; `none` on the empty list
(Python raises `ValueError` there). -/
def minNat? : List Nat → Option Nat
  | [] => none
  | x :: xs =>
    match minNat? xs with
    | none => some x
    | some y => some (min x y)

/-- One generated instance: everything `_write_instance_file` receives. -/
structure Instance where
  d : Int
  n : Nat
  m : Nat
  w_min : Int
  w_max : Int
  s_min : Int
  s_max : Int
  f : Nat
  seed : Int
  bin_cost : Int
  classes : List (List Int)
  setup_costs : List Int
  setups : List Int
  items : List Int
  deriving DecidableEq, Repr

/-- Lines 123-129 of the source: when `f = 0` the setup costs are all zero
and the bin cost is 1 (no draws); otherwise one `randint(1, 5)` per class
and bin cost 10.  Returns the costs, the bin cost and the stream position. -/
def drawCosts (st : Int → Nat → Nat) (seed : Int) (f m : Nat) :
    Option (List Int × Int × Nat) :=
  if f = 0 then some (List.replicate m 0, 1, 0)
  else
    match drawList st seed 1 5 m 0 with
    | none => none
    | some (cs, c) => some (cs, 10, c)

/-- One body of the `while` loop of `_generate_single_instance`
(lines 116-153 of the source), after `random.seed(seed + k)`:
setup costs and bin cost first, then the item loop, then the flattened item
list, then the setup weights, then the acceptance test.  Result:
`none` = exception, `some none` = rejected draw, `some (some inst)` =
accepted instance. -/
def genAttempt (st : Int → Nat → Nat) (seedk : Int) (d : Int) (n m : Nat)
    (wmin wmax smin smax : Int) (f : Nat) (baseSeed : Int) (minItems : Nat) :
    Option (Option Instance) :=
  match drawCosts st seedk f m with
  | none => none
  | some (setup_costs, bin_cost, c0) =>
    match itemLoop st seedk m wmin wmax n (List.replicate m []) c0 with
    | none => none
    | some (classes, c1) =>
      let items := classes.flatten
      match drawList st seedk smin smax m c1 with
      | none => none
      | some (setups, _) =>
        match minNat? (classes.map List.length) with
        | none => none
        | some mn =>
          if minItems ≤ mn then
            some (some ⟨d, n, m, wmin, wmax, smin, smax, f, baseSeed, bin_cost,
                        classes, setup_costs, setups, items⟩)
          else some none

/-- One attempt with the draws in the order claim C1 (following the spec's
§4.1 algorithm) states it: first the `n` item draws (class index then item
weight, from stream position 0), then the per-class setup weights, and only
after those, when `f = 1`, one setup cost per class.  Written from the
claim's words, to be compared with `genAttempt`, which embeds the source. -/
def genAttemptSpecOrder (st : Int → Nat → Nat) (seedk : Int) (d : Int) (n m : Nat)
    (wmin wmax smin smax : Int) (f : Nat) (baseSeed : Int) (minItems : Nat) :
    Option (Option Instance) :=
  match itemLoop st seedk m wmin wmax n (List.replicate m []) 0 with
  | none => none
  | some (classes, c1) =>
    let items := classes.flatten
    match drawList st seedk smin smax m c1 with
    | none => none
    | some (setups, c2) =>
      match (if f = 0 then some (List.replicate m (0 : Int), (1 : Int), c2)
        else
          match drawList st seedk 1 5 m c2 with
          | none => none
          | some (cs, c3) => some (cs, (10 : Int), c3)) with
      | none => none
      | some (setup_costs, bin_cost, _) =>
        match minNat? (classes.map List.length) with
        | none => none
        | some mn =>
          if minItems ≤ mn then
            some (some ⟨d, n, m, wmin, wmax, smin, smax, f, baseSeed, bin_cost,
                        classes, setup_costs, setups, items⟩)
          else some none

/-- One attempt with the draws in the order the amended claim C1 states it,
with every draw at an explicit stream position instead of a threaded
counter: when `f = 0` there are no cost draws and the item draws start at
position 0, followed by the setup-weight draws at positions `2n..2n+m-1`;
when `f ≠ 0` the `m` setup-cost draws come first at positions `0..m-1`, the
item draws follow at positions `m..m+2n-1`, and the setup-weight draws come
last at positions `m+2n..m+2n+m-1`.  Written from the amended claim's
words, to be compared with `genAttempt`, which embeds the source. -/
def genAttemptAmendedOrder (st : Int → Nat → Nat) (seedk : Int) (d : Int)
    (n m : Nat) (wmin wmax smin smax : Int) (f : Nat) (baseSeed : Int)
    (minItems : Nat) : Option (Option Instance) :=
  if f = 0 then
    match itemLoop st seedk m wmin wmax n (List.replicate m []) 0 with
    | none => none
    | some (classes, _) =>
      match drawList st seedk smin smax m (2 * n) with
      | none => none
      | some (setups, _) =>
        match minNat? (classes.map List.length) with
        | none => none
        | some mn =>
          if minItems ≤ mn then
            some (some ⟨d, n, m, wmin, wmax, smin, smax, f, baseSeed, 1,
                        classes, List.replicate m 0, setups, classes.flatten⟩)
          else some none
  else
    match drawList st seedk 1 5 m 0 with
    | none => none
    | some (setup_costs, _) =>
      match itemLoop st seedk m wmin wmax n (List.replicate m []) m with
      | none => none
      | some (classes, _) =>
        match drawList st seedk smin smax m (m + 2 * n) with
        | none => none
        | some (setups, _) =>
          match minNat? (classes.map List.length) with
          | none => none
          | some mn =>
            if minItems ≤ mn then
              some (some ⟨d, n, m, wmin, wmax, smin, smax, f, baseSeed, 10,
                          classes, setup_costs, setups, classes.flatten⟩)
            else some none

/-- The retry loop of `_generate_single_instance` (lines 111-155): attempt
`k`, reseeding with `seed + k`, until acceptance or the fuel (the remaining
attempts out of `max_attempts`) runs out. -/
def genLoop (st : Int → Nat → Nat) (seed : Int) (d : Int) (n m : Nat)
    (wmin wmax smin smax : Int) (f : Nat) (minItems : Nat) :
    Nat → Nat → Option (Option Instance)
  | _, 0 => some none
  | k, fuel + 1 =>
    match genAttempt st (seed + (k : Int)) d n m wmin wmax smin smax f seed minItems with
    | none => none
    | some (some inst) => some (some inst)
    | some none => genLoop st seed d n m wmin wmax smin smax f minItems (k + 1) fuel

/-- `max_attempts = 1000` (line 113 of the source). -/
def max_attempts : Nat := 1000

/-- `_generate_single_instance` (lines 85-157): derive the integer weight
bounds from the capacity and the fraction pairs, then run the retry loop
starting at attempt 0. -/
def generate_single_instance (st : Int → Nat → Nat) (min_items_per_class : Nat)
    (d : Int) (n m : Nat) (v1 v2 s1 s2 : ℚ) (f : Nat) (seed : Int) :
    Option (Option Instance) :=
  let wmin : Int := ⌊(d : ℚ) * v1⌋
  let wmax : Int := ⌈(d : ℚ) * v2⌉
  let smin : Int := ⌊(d : ℚ) * s1⌋
  let smax : Int := ⌈(d : ℚ) * s2⌉
  genLoop st seed d n m wmin wmax smin smax f min_items_per_class 0 max_attempts

/-- `_generate_filename` (lines 64-83 of the source). -/
def generate_filename (d : Int) (n m : Nat) (w_min w_max s_min s_max : Int)
    (f : Nat) (seed : Int) : String :=
  "bpps_d" ++ toString d ++ "n" ++ toString n ++ "m" ++ toString m ++
  "w" ++ toString w_min ++ "_" ++ toString w_max ++
  "s" ++ toString s_min ++ "_" ++ toString s_max ++
  "f" ++ toString f ++ "_seed" ++ toString seed ++ ".txt"

/-- The data of the non-empty class lines (lines 191-193 of the source):
for each class in index order with a non-empty item list, its setup cost,
setup weight and item count. -/
def classRecords : List (List Int) → List Int → List Int → List (Int × Int × Nat)
  | c :: cs, sc :: scs, sw :: sws =>
    (if c.isEmpty then [] else [(sc, sw, c.length)]) ++ classRecords cs scs sws
  | _, _, _ => []

/-- Rendering of one class line: `-setup_cost\tsetup_weight\titem_count\n`. -/
def renderClassRecord (r : Int × Int × Nat) : String :=
  toString (-r.1) ++ "\x09" ++ toString r.2.1 ++ "\x09" ++ toString r.2.2 ++ "\x0A"

/-- The header line `n\tm\td\tbin_cost\n` (line 188 of the source). -/
def header_line (inst : Instance) : String :=
  toString inst.n ++ "\x09" ++ toString inst.m ++ "\x09" ++ toString inst.d ++
  "\x09" ++ toString inst.bin_cost ++ "\x0A"

/-- The rendered non-empty class lines of the file. -/
def class_lines (inst : Instance) : List String :=
  (classRecords inst.classes inst.setup_costs inst.setups).map renderClassRecord

/-- The item-weight lines of the file, one weight per line
(lines 196-197 of the source). -/
def item_lines (inst : Instance) : List String :=
  inst.items.map fun w => toString w ++ "\x0A"

/-- All `file.write` calls of `_write_instance_file`, in order. -/
def write_instance_lines (inst : Instance) : List String :=
  header_line inst :: (class_lines inst ++ item_lines inst)

/-- Concatenation of successive `file.write` payloads. -/
def concatLines : List String → String
  | [] => ""
  | s :: ss => s ++ concatLines ss

/-- `_write_instance_file` (lines 159-197 of the source): the full text
written to the instance file. -/
def write_instance_file (inst : Instance) : String :=
  concatLines (write_instance_lines inst)

/-- The observable output of one builder invocation: `none` = exception,
`some none` = failure after exhausting attempts, `some (some (name, text))`
= the filename and the file content written for the accepted instance. -/
def build_output (st : Int → Nat → Nat) (min_items_per_class : Nat)
    (d : Int) (n m : Nat) (v1 v2 s1 s2 : ℚ) (f : Nat) (seed : Int) :
    Option (Option (String × String)) :=
  match generate_single_instance st min_items_per_class d n m v1 v2 s1 s2 f seed with
  | none => none
  | some none => some none
  | some (some inst) =>
    some (some (generate_filename inst.d inst.n inst.m inst.w_min inst.w_max
                  inst.s_min inst.s_max inst.f inst.seed,
                write_instance_file inst))

/-- `InstanceConfig` (lines 23-44 of the source): a plain record with no
validation in its constructor. -/
structure InstanceConfig where
  capacities : List Int
  num_items : List Nat
  num_classes : List Nat
  item_weight_ranges : List (ℚ × ℚ)
  setup_weight_ranges : List (ℚ × ℚ)
  setup_cost_flags : List Nat
  seeds : List Int
  min_items_per_class : Nat
  output_directory : String
  deriving DecidableEq, Repr

/-- One fully resolved parameter tuple, in the field order the source uses
for the entries of `failed_instances` (lines 236-240). -/
structure ParamTuple where
  d : Int
  n : Nat
  m : Nat
  v1 : ℚ
  v2 : ℚ
  s1 : ℚ
  s2 : ℚ
  f : Nat
  seed : Int
  deriving DecidableEq, Repr

/-- The cross-product of all configured dimensions in the nesting order of
`generate_instances` (lines 213-219): classes, items, capacities,
item-weight ranges, setup-weight ranges, flags, seeds. -/
def sweepTuples (cfg : InstanceConfig) : List ParamTuple :=
  cfg.num_classes.flatMap fun m =>
  cfg.num_items.flatMap fun n =>
  cfg.capacities.flatMap fun d =>
  cfg.item_weight_ranges.flatMap fun vr =>
  cfg.setup_weight_ranges.flatMap fun sr =>
  cfg.setup_cost_flags.flatMap fun f =>
  cfg.seeds.map fun seed => ⟨d, n, m, vr.1, vr.2, sr.1, sr.2, f, seed⟩

/-- The builder invocation for one tuple of the sweep. -/
def runTuple (st : Int → Nat → Nat) (minI : Nat) (t : ParamTuple) :
    Option (Option Instance) :=
  generate_single_instance st minI t.d t.n t.m t.v1 t.v2 t.s1 t.s2 t.f t.seed

/-- The sweep body (lines 220-243 of the source): process the tuples in
order, counting totals and successes and collecting the failed tuples;
an exception in any invocation aborts the whole sweep. -/
def runSweep (st : Int → Nat → Nat) (minI : Nat) :
    List ParamTuple → Option (Nat × Nat × List ParamTuple)
  | [] => some (0, 0, [])
  | t :: ts =>
    match runTuple st minI t with
    | none => none
    | some r =>
      match runSweep st minI ts with
      | none => none
      | some (tot, suc, fl) =>
        match r with
        | some _ => some (tot + 1, suc + 1, fl)
        | none => some (tot + 1, suc, t :: fl)

/-- The statistics record returned by `generate_instances`
(lines 245-251 of the source). -/
structure GenStats where
  total_attempted : Nat
  successful : Nat
  failed : Nat
  success_rate : ℚ
  failed_instances : List ParamTuple
  deriving DecidableEq, Repr

/-- `generate_instances` (lines 199-259 of the source): run the sweep over
the cross-product and aggregate the statistics, with
`success_rate = successful / total * 100` and 0 when no tuple was
attempted. -/
def generate_instances (st : Int → Nat → Nat) (cfg : InstanceConfig) :
    Option GenStats :=
  match runSweep st cfg.min_items_per_class (sweepTuples cfg) with
  | none => none
  | some (tot, suc, fl) =>
    some ⟨tot, suc, fl.length,
          if 0 < tot then (suc : ℚ) / (tot : ℚ) * 100 else 0, fl⟩

/-! Concrete PRNG streams and configurations used to evaluate the
development on explicit inputs. -/

/-- A concrete stream: the i-th raw draw is `i`, for every seed. -/
def stId : Int → Nat → Nat := fun _ i => i

/-- A concrete stream: the i-th raw draw is `i / 2`, for every seed. -/
def stHalf : Int → Nat → Nat := fun _ i => i / 2

/-- An infeasible sweep: `n = 2`, `m = 5`, `min_items_per_class = 2`,
two seeds. -/
def cfgInfeasible : InstanceConfig :=
  ⟨[10], [2], [5], [(0, 1/2)], [(0, 1/2)], [0], [0, 1], 2, "./generated_instances"⟩

/-- A three-combination sweep (`n ∈ \x7b2, 10, 12\x7d`, `m = 5`) of which
exactly the `n = 2` combination is infeasible. -/
def cfgThree : InstanceConfig :=
  ⟨[20], [2, 10, 12], [5], [(0, 1/2)], [(0, 1/2)], [0], [0], 2, "./generated_instances"⟩

/-- A configuration with an empty `capacities` dimension list: the
cross-product is empty. -/
def cfgEmptyDim : InstanceConfig :=
  ⟨[], [4], [2], [(0, 1/2)], [(0, 1/2)], [1], [0], 2, "./generated_instances"⟩

/-- A configuration whose item-weight fraction pair has min > max, inverting
the derived bounds (`w_min = 60 > 10 = w_max` at `d = 200`). -/
def cfgBadPair : InstanceConfig :=
  ⟨[200], [4], [2], [(3/10, 1/20)], [(0, 1/2)], [1], [0], 2, "./generated_instances"⟩

/-- A feasible single-tuple configuration (`n = 4`, `m = 2`, `f = 1`). -/
def cfgSmall : InstanceConfig :=
  ⟨[20], [4], [2], [(0, 1/2)], [(0, 1/2)], [1], [0], 2, "./generated_instances"⟩

/-- `cfgSmall` with a different output directory but the same
`min_items_per_class`. -/
def cfgSmallAlt : InstanceConfig :=
  ⟨[20], [4], [2], [(0, 1/2)], [(0, 1/2)], [1], [0], 2, "./elsewhere"⟩

/-- The single tuple of `cfgInfeasible` with seed 0. -/
def tInfeasible0 : ParamTuple := ⟨10, 2, 5, 0, 1/2, 0, 1/2, 0, 0⟩

/-- The statistics `generate_instances` returns on `cfgInfeasible`. -/
def statsInfeasible : GenStats :=
  ⟨2, 0, 2, 0, [⟨10, 2, 5, 0, 1/2, 0, 1/2, 0, 0⟩, ⟨10, 2, 5, 0, 1/2, 0, 1/2, 0, 1⟩]⟩

/-- The infeasible tuple (`n = 2`) of `cfgThree`. -/
def tThree0 : ParamTuple := ⟨20, 2, 5, 0, 1/2, 0, 1/2, 0, 0⟩

/-- The statistics `generate_instances` returns on `cfgThree`. -/
def statsThree : GenStats := ⟨3, 2, 1, 200/3, [tThree0]⟩

/-- The single tuple of `cfgBadPair`. -/
def tBad0 : ParamTuple := ⟨200, 4, 2, 3/10, 1/20, 0, 1/2, 1, 0⟩

/-- The instance accepted on the first attempt for `stHalf` at
`d = 20, n = 4, m = 2, f = 1, seed = 0` with bounds `[0, 10]`. -/
def instSmall : Instance :=
  ⟨20, 4, 2, 0, 10, 0, 10, 1, 0, 10, [[2, 4], [1, 3]], [1, 1], [5, 5], [2, 4, 1, 3]⟩

/-- The file layout exactly as claim C3 states it: a header line holding
`n`, `m`, `d` and the bin cost; then, for each class index in ascending
order whose item list is non-empty, a line holding the negated setup cost,
the setup weight and the item count; then one line per item weight with the
items grouped by class in ascending class-index order, each class keeping
its insertion order; every line newline-terminated.  Written from the
claim's words, to be compared with the encoder `write_instance_lines`. -/
def fileSpecLines (inst : Instance) : List String :=
  (toString inst.n ++ "\x09" ++ toString inst.m ++ "\x09" ++ toString inst.d ++
    "\x09" ++ toString inst.bin_cost ++ "\x0A") ::
  (((List.range inst.m).filterMap fun cl =>
    if ((inst.classes[cl]?).getD []).isEmpty then none
    else some (toString (-((inst.setup_costs[cl]?).getD 0)) ++ "\x09" ++
      toString ((inst.setups[cl]?).getD 0) ++ "\x09" ++
      toString ((inst.classes[cl]?).getD []).length ++ "\x0A")) ++
  ((List.range inst.m).map fun cl =>
    ((inst.classes[cl]?).getD []).map fun w => toString w ++ "\x0A").flatten)

/-- The file text as claim C3 describes it. -/
def fileContentSpec (inst : Instance) : String := concatLines (fileSpecLines inst)


/-! Basic facts about the sampling primitives. -/

theorem randint_eq (st : Int → Nat → Nat) (seed : Int) {a b : Int} (c : Nat)
    (h : a ≤ b) :
    randint st seed a b c = some (a + ((st seed c : Int)) % (b - a + 1), c + 1) := by
  simp [randint, h]

theorem randint_none (st : Int → Nat → Nat) (seed : Int) {a b : Int} (c : Nat)
    (h : b < a) : randint st seed a b c = none := by
  simp [randint]
  omega

theorem randint_inv {st : Int → Nat → Nat} {seed : Int} {a b : Int} {c : Nat}
    {x : Int} {c' : Nat} (h : randint st seed a b c = some (x, c')) :
    a ≤ x ∧ x ≤ b ∧ c' = c + 1 := by
  unfold randint at h
  by_cases hab : a ≤ b
  · rw [if_pos hab] at h
    have hpos : (0 : Int) < b - a + 1 := by omega
    have h0 : 0 ≤ ((st seed c : Int)) % (b - a + 1) := Int.emod_nonneg _ (by omega)
    have h1 : ((st seed c : Int)) % (b - a + 1) < b - a + 1 := Int.emod_lt_of_pos _ hpos
    injection h with h2
    obtain ⟨h3, h4⟩ := Prod.mk.injEq .. ▸ h2
    constructor
    · omega
    constructor
    · omega
    · omega
  · rw [if_neg hab] at h
    cases h

theorem drawList_eq (st : Int → Nat → Nat) (seed : Int) {a b : Int} (h : a ≤ b) :
    ∀ (cnt c : Nat), drawList st seed a b cnt c =
      some ((List.range cnt).map (fun i => a + ((st seed (c + i) : Int)) % (b - a + 1)),
            c + cnt)
  | 0, c => by simp [drawList]
  | cnt + 1, c => by
    have hc : c + 1 + cnt = c + (cnt + 1) := by omega
    have hl : (List.range (cnt + 1)).map
          (fun i => a + ((st seed (c + i) : Int)) % (b - a + 1)) =
        (a + ((st seed c : Int)) % (b - a + 1)) ::
          (List.range cnt).map (fun i => a + ((st seed (c + 1 + i) : Int)) % (b - a + 1)) := by
      rw [List.range_succ_eq_map, List.map_cons, List.map_map]
      refine congrArg₂ List.cons (by rw [Nat.add_zero]) ?_
      refine List.map_congr_left fun i _ => ?_
      show a + ((st seed (c + (i + 1)) : Int)) % (b - a + 1) =
        a + ((st seed (c + 1 + i) : Int)) % (b - a + 1)
      have h2 : c + (i + 1) = c + 1 + i := by omega
      rw [h2]
    simp only [drawList, randint_eq st seed c h, drawList_eq st seed h cnt (c + 1), hl, hc]

theorem drawList_inv {st : Int → Nat → Nat} {seed : Int} {a b : Int} :
    ∀ {cnt c xs c'}, drawList st seed a b cnt c = some (xs, c') →
      xs.length = cnt ∧ c' = c + cnt ∧ ∀ x ∈ xs, a ≤ x ∧ x ≤ b := by
  intro cnt
  induction cnt with
  | zero =>
    intro c xs c' h
    simp [drawList] at h
    obtain ⟨rfl, rfl⟩ := h
    simp
  | succ k ih =>
    intro c xs c' h
    rw [drawList] at h
    split at h
    · cases h
    · rename_i heq1
      split at h
      · cases h
      · rename_i heq2
        injection h with h3
        obtain ⟨h4, h5⟩ := Prod.mk.injEq .. ▸ h3
        obtain ⟨ha, hb, hc⟩ := randint_inv heq1
        obtain ⟨hl, hcnt, hmem⟩ := ih heq2
        subst h4 h5
        refine ⟨by simp [hl], by omega, ?_⟩
        intro y hy
        rcases List.mem_cons.1 hy with rfl | hy'
        · exact ⟨ha, hb⟩
        · exact hmem y hy'

/-! Facts about `appendAt` and the item-assignment loop. -/

theorem length_appendAt : ∀ (ls : List (List Int)) (i : Nat) (w : Int),
    (appendAt ls i w).length = ls.length
  | [], _, _ => rfl
  | _ :: _, 0, _ => by simp [appendAt]
  | _ :: ls, i + 1, w => by simp [appendAt, length_appendAt ls i w]

theorem sum_lengths_appendAt : ∀ (ls : List (List Int)) (i : Nat) (w : Int),
    i < ls.length →
    ((appendAt ls i w).map List.length).sum = (ls.map List.length).sum + 1
  | [], i, w, h => by cases h
  | l :: ls, 0, w, _ => by simp [appendAt]; omega
  | l :: ls, i + 1, w, h => by
    have := sum_lengths_appendAt ls i w (by simpa using h)
    simp [appendAt, this]
    omega

theorem mem_flatten_appendAt : ∀ (ls : List (List Int)) (i : Nat) (w x : Int),
    x ∈ (appendAt ls i w).flatten → x ∈ ls.flatten ∨ x = w
  | [], i, w, x => by simp [appendAt]
  | l :: ls, 0, w, x => by
    intro hx
    rw [show appendAt (l :: ls) 0 w = (l ++ [w]) :: ls from rfl,
      List.flatten_cons] at hx
    rw [List.flatten_cons]
    rcases List.mem_append.1 hx with h | h
    · rcases List.mem_append.1 h with h' | h'
      · exact Or.inl (List.mem_append.2 (Or.inl h'))
      · exact Or.inr (by simpa using h')
    · exact Or.inl (List.mem_append.2 (Or.inr h))
  | l :: ls, i + 1, w, x => by
    intro hx
    rw [show appendAt (l :: ls) (i + 1) w = l :: appendAt ls i w from rfl,
      List.flatten_cons] at hx
    rw [List.flatten_cons]
    rcases List.mem_append.1 hx with h | h
    · exact Or.inl (List.mem_append.2 (Or.inl h))
    · rcases mem_flatten_appendAt ls i w x h with h' | h'
      · exact Or.inl (List.mem_append.2 (Or.inr h'))
      · exact Or.inr h'

theorem itemLoop_inv {st : Int → Nat → Nat} {seed : Int} {m : Nat} {wmin wmax : Int} :
    ∀ {cnt : Nat} {cls : List (List Int)} {c : Nat} {cls' : List (List Int)} {c' : Nat},
      cls.length = m →
      itemLoop st seed m wmin wmax cnt cls c = some (cls', c') →
      cls'.length = m ∧
      (cls'.map List.length).sum = (cls.map List.length).sum + cnt ∧
      c' = c + 2 * cnt ∧
      (∀ x ∈ cls'.flatten, x ∈ cls.flatten ∨ (wmin ≤ x ∧ x ≤ wmax)) := by
  intro cnt
  induction cnt with
  | zero =>
    intro cls c cls' c' hlen h
    simp [itemLoop] at h
    obtain ⟨rfl, rfl⟩ := h
    exact ⟨hlen, by simp, by omega, fun x hx => Or.inl hx⟩
  | succ k ih =>
    intro cls c cls' c' hlen h
    rw [itemLoop] at h
    split at h
    · cases h
    · rename_i cid c1 heq1
      split at h
      · cases h
      · rename_i w c2 heq2
        obtain ⟨hc0, hcub, hc1⟩ := randint_inv heq1
        obtain ⟨hw1, hw2, hc2⟩ := randint_inv heq2
        have hcid : cid.toNat < cls.length := by omega
        have hlen2 : (appendAt cls cid.toNat w).length = m := by
          rw [length_appendAt]; exact hlen
        obtain ⟨ha, hb, hc, hd⟩ := ih hlen2 h
        refine ⟨ha, ?_, by omega, ?_⟩
        · rw [hb, sum_lengths_appendAt cls cid.toNat w hcid]
          omega
        · intro x hx
          rcases hd x hx with h' | h'
          · rcases mem_flatten_appendAt cls cid.toNat w x h' with h'' | rfl
            · exact Or.inl h''
            · exact Or.inr ⟨hw1, hw2⟩
          · exact Or.inr h'

theorem itemLoop_total {st : Int → Nat → Nat} {seed : Int} {m : Nat} {wmin wmax : Int}
    (hm : 1 ≤ m) (hw : wmin ≤ wmax) :
    ∀ (cnt : Nat) (cls : List (List Int)) (c : Nat),
      ∃ cls' c', itemLoop st seed m wmin wmax cnt cls c = some (cls', c') := by
  intro cnt
  induction cnt with
  | zero => intro cls c; exact ⟨cls, c, rfl⟩
  | succ k ih =>
    intro cls c
    have h0 : (0 : Int) ≤ (m : Int) - 1 := by omega
    simp only [itemLoop, randint_eq st seed c h0, randint_eq st seed (c + 1) hw]
    exact ih _ _

theorem itemLoop_none {st : Int → Nat → Nat} {seed : Int} {m : Nat} {wmin wmax : Int}
    (hw : wmax < wmin) {cnt : Nat} (hcnt : 1 ≤ cnt) (cls : List (List Int)) (c : Nat) :
    itemLoop st seed m wmin wmax cnt cls c = none := by
  obtain ⟨k, rfl⟩ : ∃ k, cnt = k + 1 := ⟨cnt - 1, by omega⟩
  by_cases h0 : (0 : Int) ≤ (m : Int) - 1
  · simp only [itemLoop, randint_eq st seed c h0, randint_none st seed (c + 1) hw]
  · simp only [itemLoop, randint_none st seed c (by omega : ((m : Int) - 1) < 0)]

/-! Facts about `minNat?`. -/

theorem minNat?_eq_none : ∀ {l : List Nat}, minNat? l = none ↔ l = []
  | [] => by simp [minNat?]
  | x :: xs => by
    rw [minNat?]
    cases minNat? xs <;> simp

theorem minNat?_le : ∀ {l : List Nat} {mn : Nat}, minNat? l = some mn →
    ∀ y ∈ l, mn ≤ y := by
  intro l
  induction l with
  | nil => intro mn h; cases h
  | cons x xs ih =>
    intro mn h y hy
    rw [minNat?] at h
    split at h
    · rename_i hxs
      injection h with h1
      rcases List.mem_cons.1 hy with h3 | hy'
      · omega
      · rw [minNat?_eq_none.1 hxs] at hy'
        cases hy'
    · rename_i z hxs
      injection h with h1
      rcases List.mem_cons.1 hy with h3 | hy'
      · have h4 : min x z ≤ x := Nat.min_le_left _ _
        omega
      · have h2 := ih hxs y hy'
        have h4 : min x z ≤ z := Nat.min_le_right _ _
        omega

theorem length_mul_le_sum {k : Nat} : ∀ {l : List Nat},
    (∀ y ∈ l, k ≤ y) → l.length * k ≤ l.sum := by
  intro l
  induction l with
  | nil => simp
  | cons x xs ih =>
    intro h
    have h1 := h x (by simp)
    have h2 := ih fun y hy => h y (List.mem_cons_of_mem _ hy)
    simp [Nat.succ_mul]
    omega

/-! Inversion lemmas for the attempt, the retry loop and the sweep. -/

theorem drawCosts_eq_zero {st : Int → Nat → Nat} {seed : Int} {m : Nat} :
    drawCosts st seed 0 m = some (List.replicate m 0, 1, 0) := rfl

theorem drawCosts_eq_of_ne {st : Int → Nat → Nat} {seed : Int} {f m : Nat}
    (hf : f ≠ 0) :
    drawCosts st seed f m =
      some ((List.range m).map (fun i => 1 + ((st seed i : Int)) % 5), 10, m) := by
  rw [drawCosts, if_neg hf, drawList_eq st seed (by omega) m 0]
  norm_num

theorem drawCosts_inv {st : Int → Nat → Nat} {seed : Int} {f m : Nat}
    {cs : List Int} {bc : Int} {c0 : Nat}
    (h : drawCosts st seed f m = some (cs, bc, c0)) :
    cs.length = m ∧
    (f = 0 → cs = List.replicate m 0 ∧ bc = 1 ∧ c0 = 0) ∧
    (f ≠ 0 → (∀ x ∈ cs, 1 ≤ x ∧ x ≤ 5) ∧ bc = 10 ∧ c0 = m) := by
  by_cases hf : f = 0
  · rw [hf, drawCosts_eq_zero] at h
    injection h with h1
    obtain ⟨h2, h3⟩ := Prod.mk.injEq .. ▸ h1
    obtain ⟨h4, h5⟩ := Prod.mk.injEq .. ▸ h3
    subst h2 h4 h5
    exact ⟨by simp, fun _ => ⟨rfl, rfl, rfl⟩, fun hf' => absurd hf hf'⟩
  · rw [drawCosts, if_neg hf] at h
    split at h
    · cases h
    · rename_i xs c heq
      injection h with h1
      obtain ⟨h2, h3⟩ := Prod.mk.injEq .. ▸ h1
      obtain ⟨h4, h5⟩ := Prod.mk.injEq .. ▸ h3
      subst h2 h4 h5
      obtain ⟨hl, hc, hmem⟩ := drawList_inv heq
      exact ⟨hl, fun hf' => absurd hf' hf,
        fun _ => ⟨hmem, rfl, by omega⟩⟩

theorem genAttempt_inv {st : Int → Nat → Nat} {sk : Int} {d : Int} {n m : Nat}
    {wmin wmax smin smax : Int} {f : Nat} {bs : Int} {minI : Nat} {inst : Instance}
    (h : genAttempt st sk d n m wmin wmax smin smax f bs minI = some (some inst)) :
    ∃ costs bc c0 classes c1 setups c2 mn,
      drawCosts st sk f m = some (costs, bc, c0) ∧
      itemLoop st sk m wmin wmax n (List.replicate m []) c0 = some (classes, c1) ∧
      drawList st sk smin smax m c1 = some (setups, c2) ∧
      minNat? (classes.map List.length) = some mn ∧ minI ≤ mn ∧
      inst = ⟨d, n, m, wmin, wmax, smin, smax, f, bs, bc,
              classes, costs, setups, classes.flatten⟩ := by
  rw [genAttempt] at h
  split at h
  · cases h
  · rename_i costs bc c0 heq0
    split at h
    · cases h
    · rename_i classes c1 heq1
      split at h
      · cases h
      · rename_i setups c2 heq2
        split at h
        · cases h
        · rename_i mn heq3
          split at h
          · injection h with h4
            injection h4 with h5
            exact ⟨costs, bc, c0, classes, c1, setups, c2, mn,
              heq0, heq1, heq2, heq3, by assumption, h5.symm⟩
          · cases h

theorem genLoop_inv {st : Int → Nat → Nat} {seed : Int} {d : Int} {n m : Nat}
    {wmin wmax smin smax : Int} {f : Nat} {minI : Nat} :
    ∀ {fuel k : Nat} {inst : Instance},
      genLoop st seed d n m wmin wmax smin smax f minI k fuel = some (some inst) →
      ∃ k', genAttempt st (seed + (k' : Int)) d n m wmin wmax smin smax f seed minI =
        some (some inst) := by
  intro fuel
  induction fuel with
  | zero => intro k inst h; cases h
  | succ fl ih =>
    intro k inst h
    rw [genLoop] at h
    split at h
    · cases h
    · rename_i inst' heq
      injection h with h1
      injection h1 with h2
      exact ⟨k, by rw [heq, h2]⟩
    · exact ih h

theorem genLoop_none_of_reject {st : Int → Nat → Nat} {seed : Int} {d : Int}
    {n m : Nat} {wmin wmax smin smax : Int} {f : Nat} {minI : Nat}
    (hall : ∀ k' : Nat,
      genAttempt st (seed + (k' : Int)) d n m wmin wmax smin smax f seed minI =
        some none) :
    ∀ (fuel k : Nat),
      genLoop st seed d n m wmin wmax smin smax f minI k fuel = some none := by
  intro fuel
  induction fuel with
  | zero => intro k; rfl
  | succ fl ih =>
    intro k
    rw [genLoop, hall k]
    exact ih (k + 1)

theorem runSweep_inv {st : Int → Nat → Nat} {minI : Nat} :
    ∀ {ts : List ParamTuple} {tot suc : Nat} {fl : List ParamTuple},
      runSweep st minI ts = some (tot, suc, fl) →
      tot = ts.length ∧
      ∀ t ∈ ts, runTuple st minI t = some none → t ∈ fl := by
  intro ts
  induction ts with
  | nil =>
    intro tot suc fl h
    simp [runSweep] at h
    simp [h.1.symm]
  | cons t ts ih =>
    intro tot suc fl h
    rw [runSweep] at h
    split at h
    · cases h
    · rename_i r heq0
      split at h
      · cases h
      · rename_i tot' suc' fl' heq1
        obtain ⟨hlen, hmem⟩ := ih heq1
        split at h
        · rename_i inst heqr
          injection h with h1
          obtain ⟨h2, h3⟩ := Prod.mk.injEq .. ▸ h1
          obtain ⟨h4, h5⟩ := Prod.mk.injEq .. ▸ h3
          subst h2 h4 h5
          refine ⟨by simp [hlen], ?_⟩
          intro u hu hnone
          rcases List.mem_cons.1 hu with h6 | h6
          · rw [h6] at hnone
            rw [hnone] at heq0
            simp at heq0
          · exact hmem u h6 hnone
        · rename_i heqr
          injection h with h1
          obtain ⟨h2, h3⟩ := Prod.mk.injEq .. ▸ h1
          obtain ⟨h4, h5⟩ := Prod.mk.injEq .. ▸ h3
          subst h2 h4 h5
          refine ⟨by simp [hlen], ?_⟩
          intro u hu hnone
          rcases List.mem_cons.1 hu with h6 | h6
          · rw [h6]
            exact List.mem_cons_self _ _
          · exact List.mem_cons_of_mem _ (hmem u h6 hnone)

theorem generate_single_instance_eq (st : Int → Nat → Nat)
    (min_items_per_class : Nat) (d : Int) (n m : Nat) (v1 v2 s1 s2 : ℚ)
    (f : Nat) (seed : Int) :
    generate_single_instance st min_items_per_class d n m v1 v2 s1 s2 f seed =
      genLoop st seed d n m (⌊(d : ℚ) * v1⌋) (⌈(d : ℚ) * v2⌉)
        (⌊(d : ℚ) * s1⌋) (⌈(d : ℚ) * s2⌉) f min_items_per_class 0 max_attempts := rfl

theorem flatten_replicate_nil : ∀ m : Nat,
    (List.replicate m ([] : List Int)).flatten = []
  | 0 => rfl
  | k + 1 => by
    rw [List.replicate_succ, List.flatten_cons, List.nil_append]
    exact flatten_replicate_nil k

theorem sum_lengths_replicate_nil (m : Nat) :
    ((List.replicate m ([] : List Int)).map List.length).sum = 0 := by
  simp

/-- When the acceptance test cannot be met (`n < m * minItems`), every
attempt with sane bounds runs to completion and is rejected. -/
theorem genAttempt_reject {st : Int → Nat → Nat} {sk : Int} {d : Int} {n m : Nat}
    {wmin wmax smin smax : Int} {f : Nat} {bs : Int} {minI : Nat}
    (hm : 1 ≤ m) (hw : wmin ≤ wmax) (hs : smin ≤ smax) (hn : n < m * minI) :
    genAttempt st sk d n m wmin wmax smin smax f bs minI = some none := by
  obtain ⟨costs, bc, c0, hcosts⟩ :
      ∃ cs bc c0, drawCosts st sk f m = some (cs, bc, c0) := by
    by_cases hf : f = 0
    · exact ⟨_, _, _, by rw [hf]; exact drawCosts_eq_zero⟩
    · exact ⟨_, _, _, drawCosts_eq_of_ne hf⟩
  obtain ⟨classes, c1, hloop⟩ :=
    @itemLoop_total st sk m wmin wmax hm hw n (List.replicate m []) c0
  obtain ⟨hlen, hsum, hcc, hmem⟩ := itemLoop_inv (by simp) hloop
  rw [sum_lengths_replicate_nil] at hsum
  simp only [genAttempt, hcosts, hloop, drawList_eq st sk hs m c1]
  cases hmn : minNat? (classes.map List.length) with
  | none =>
    rw [minNat?_eq_none] at hmn
    rw [List.map_eq_nil_iff] at hmn
    rw [hmn] at hlen
    simp at hlen
    omega
  | some mn =>
    have hforall : ¬ minI ≤ mn := by
      intro hge
      have hall : ∀ y ∈ classes.map List.length, minI ≤ y :=
        fun y hy => le_trans hge (minNat?_le hmn y hy)
      have hsumge := length_mul_le_sum hall
      rw [List.length_map, hlen, hsum] at hsumge
      omega
    simp only [hmn, if_neg hforall]

/-- The first attempt already raises when the derived item-weight bounds are
inverted and there is at least one item to draw. -/
theorem genAttempt_err {st : Int → Nat → Nat} {sk : Int} {d : Int} {n m : Nat}
    {wmin wmax smin smax : Int} {f : Nat} {bs : Int} {minI : Nat}
    (hw : wmax < wmin) (hn : 1 ≤ n) :
    genAttempt st sk d n m wmin wmax smin smax f bs minI = none := by
  obtain ⟨costs, bc, c0, hcosts⟩ :
      ∃ cs bc c0, drawCosts st sk f m = some (cs, bc, c0) := by
    by_cases hf : f = 0
    · exact ⟨_, _, _, by rw [hf]; exact drawCosts_eq_zero⟩
    · exact ⟨_, _, _, drawCosts_eq_of_ne hf⟩
  simp only [genAttempt, hcosts, itemLoop_none hw hn (List.replicate m []) c0]

theorem genLoop_none_of_err {st : Int → Nat → Nat} {seed : Int} {d : Int}
    {n m : Nat} {wmin wmax smin smax : Int} {f : Nat} {minI : Nat}
    (hall : ∀ k' : Nat,
      genAttempt st (seed + (k' : Int)) d n m wmin wmax smin smax f seed minI = none)
    {fuel : Nat} (hf : 1 ≤ fuel) (k : Nat) :
    genLoop st seed d n m wmin wmax smin smax f minI k fuel = none := by
  obtain ⟨fl, rfl⟩ : ∃ fl, fuel = fl + 1 := ⟨fuel - 1, by omega⟩
  rw [genLoop, hall k]

/-! Lemmas relating the encoder to an index-based description of the file
layout. -/

theorem map_eq_range_map {α β : Type} (g : α → β) (dflt : α) :
    ∀ (xs : List α), xs.map g = (List.range xs.length).map
      (fun i => g ((xs[i]?).getD dflt))
  | [] => by simp
  | x :: xs => by
    rw [List.length_cons, List.range_succ_eq_map, List.map_cons, List.map_cons,
      List.map_map]
    refine congrArg₂ List.cons (by simp) ?_
    rw [map_eq_range_map g dflt xs]
    refine List.map_congr_left fun i _ => ?_
    simp [Function.comp]

theorem filterMap_range_succ {α : Type} (f : Nat → Option α) (k : Nat) :
    (List.range (k + 1)).filterMap f =
      (f 0).toList ++ (List.range k).filterMap (fun i => f (i + 1)) := by
  rw [List.range_succ_eq_map, List.filterMap_cons, List.filterMap_map]
  cases f 0 <;> simp [Function.comp_def, Nat.succ_eq_add_one]

theorem classRecords_counts_sum : ∀ (cs : List (List Int)) (scs sws : List Int),
    scs.length = cs.length → sws.length = cs.length →
    ((classRecords cs scs sws).map (fun r => r.2.2)).sum = (cs.map List.length).sum := by
  intro cs
  induction cs with
  | nil => intro scs sws _ _; rfl
  | cons c cs ih =>
    intro scs sws h1 h2
    cases scs with
    | nil => simp at h1
    | cons sc scs =>
      cases sws with
      | nil => simp at h2
      | cons sw sws =>
        have ih' := ih scs sws (by simpa using h1) (by simpa using h2)
        rw [show classRecords (c :: cs) (sc :: scs) (sw :: sws) =
          (if c.isEmpty then [] else [(sc, sw, c.length)]) ++ classRecords cs scs sws
          from rfl]
        by_cases hc : c.isEmpty
        · rw [List.isEmpty_iff] at hc
          simp [hc, ih']
        · simp [hc, ih']

theorem classRecords_length_of_nonempty :
    ∀ (cs : List (List Int)) (scs sws : List Int),
    scs.length = cs.length → sws.length = cs.length →
    (∀ c ∈ cs, ¬c.isEmpty) →
    (classRecords cs scs sws).length = cs.length := by
  intro cs
  induction cs with
  | nil => intro scs sws _ _ _; rfl
  | cons c cs ih =>
    intro scs sws h1 h2 hne
    cases scs with
    | nil => simp at h1
    | cons sc scs =>
      cases sws with
      | nil => simp at h2
      | cons sw sws =>
        have ih' := ih scs sws (by simpa using h1) (by simpa using h2)
          (fun x hx => hne x (List.mem_cons_of_mem _ hx))
        rw [show classRecords (c :: cs) (sc :: scs) (sw :: sws) =
          (if c.isEmpty then [] else [(sc, sw, c.length)]) ++ classRecords cs scs sws
          from rfl]
        rw [if_neg (hne c (List.mem_cons_self _ _))]
        simp [ih']

theorem classRecords_map_eq : ∀ (cs : List (List Int)) (scs sws : List Int),
    scs.length = cs.length → sws.length = cs.length →
    (classRecords cs scs sws).map renderClassRecord =
      (List.range cs.length).filterMap (fun cl =>
        if ((cs[cl]?).getD []).isEmpty then none
        else some (toString (-((scs[cl]?).getD 0)) ++ "\x09" ++
          toString ((sws[cl]?).getD 0) ++ "\x09" ++
          toString ((cs[cl]?).getD []).length ++ "\x0A")) := by
  intro cs
  induction cs with
  | nil => intro scs sws _ _; rfl
  | cons c cs ih =>
    intro scs sws h1 h2
    cases scs with
    | nil => simp at h1
    | cons sc scs =>
      cases sws with
      | nil => simp at h2
      | cons sw sws =>
        have ih' := ih scs sws (by simpa using h1) (by simpa using h2)
        rw [show classRecords (c :: cs) (sc :: scs) (sw :: sws) =
          (if c.isEmpty then [] else [(sc, sw, c.length)]) ++ classRecords cs scs sws
          from rfl]
        rw [List.length_cons, filterMap_range_succ, List.map_append, ih']
        refine congrArg₂ (· ++ ·) ?_ ?_
        · by_cases hc : c.isEmpty <;>
            simp [hc, renderClassRecord]
        · refine congrArg₂ List.filterMap ?_ rfl
          funext i
          simp

/-! Claim C1: the order of the random draws inside one attempt. -/

/-- C1 is refuted at a concrete input: with the stream `stId` (draw i = i),
seed 0, `n = 1`, `m = 1`, bounds `[0, 10]`, `f = 1` and `min_items = 1`,
the attempt as the source performs it (`genAttempt`, setup costs drawn
first) and the attempt with the draw order the claim states
(`genAttemptSpecOrder`, setup costs drawn last) both complete without an
exception yet produce different accepted instances, so the claimed draw
order is not the code's. -/
theorem claim_C1_counterexample :
    genAttempt stId 0 10 1 1 0 10 0 10 1 0 1 ≠
      genAttemptSpecOrder stId 0 10 1 1 0 10 0 10 1 0 1 ∧
    genAttempt stId 0 10 1 1 0 10 0 10 1 0 1 ≠ none ∧
    genAttemptSpecOrder stId 0 10 1 1 0 10 0 10 1 0 1 ≠ none :=
  ⟨by decide, by decide, by decide⟩

/-- C1 (amended): in every attempt — accepted, rejected, or erroring, and
for both flag values — after reseeding with `base_seed + k`, the draws occur
in this order: first, when `f = 1`, one setup cost per class in class-index
order (stream positions `0..m-1`; no cost draws when `f = 0`); then, for
each of the `n` items in order, a class index followed by an item weight;
and last, for each class in index order, a setup weight.  The source's
attempt `genAttempt` is equal, on every input, to the reference
`genAttemptAmendedOrder` written from that order with every block at its
explicit stream position. -/
theorem claim_C1_amended (st : Int → Nat → Nat) (sk : Int) (d : Int) (n m : Nat)
    (wmin wmax smin smax : Int) (f : Nat) (bs : Int) (minI : Nat) :
    genAttempt st sk d n m wmin wmax smin smax f bs minI =
      genAttemptAmendedOrder st sk d n m wmin wmax smin smax f bs minI := by
  by_cases hf : f = 0
  · subst hf
    rw [genAttemptAmendedOrder, if_pos rfl]
    simp only [genAttempt, drawCosts_eq_zero]
    cases hloop : itemLoop st sk m wmin wmax n (List.replicate m []) 0 with
    | none => simp only [hloop]
    | some v =>
      obtain ⟨classes, c1⟩ := v
      obtain ⟨_, _, hc1, _⟩ := itemLoop_inv (by simp) hloop
      have hc1' : c1 = 2 * n := by omega
      simp only [hloop, hc1']
  · rw [genAttemptAmendedOrder, if_neg hf]
    have hdl : drawList st sk 1 5 m 0 =
        some ((List.range m).map (fun i => 1 + ((st sk i : Int)) % 5), m) := by
      rw [drawList_eq st sk (by omega) m 0]
      norm_num
    simp only [genAttempt, drawCosts_eq_of_ne hf, hdl]
    cases hloop : itemLoop st sk m wmin wmax n (List.replicate m []) m with
    | none => simp only [hloop]
    | some v =>
      obtain ⟨classes, c1⟩ := v
      obtain ⟨_, _, hc1, _⟩ := itemLoop_inv (by simp) hloop
      have hc1' : c1 = m + 2 * n := by omega
      simp only [hloop, hc1']

/-! Claim C2: infeasible parameter tuples exhaust the attempt budget, the
failure is recorded and the sweep continues. -/

/-- C2: for a parameter tuple with `n < m * min_items_per_class` and sane
fraction pairs, every one of the reseeded attempts is rejected, the builder
returns failure after its full budget, and a completed sweep containing the
tuple records it in `failed_instances` while still attempting every tuple
of the cross-product. -/
theorem claim_C2 {st : Int → Nat → Nat} {cfg : InstanceConfig} {t : ParamTuple}
    {stats : GenStats}
    (hmem : t ∈ sweepTuples cfg)
    (hn : t.n < t.m * cfg.min_items_per_class)
    (hd : 0 ≤ t.d) (hv : t.v1 ≤ t.v2) (hs : t.s1 ≤ t.s2)
    (hrun : generate_instances st cfg = some stats) :
    (∀ k : Nat, genAttempt st (t.seed + (k : Int)) t.d t.n t.m
        (⌊(t.d : ℚ) * t.v1⌋) (⌈(t.d : ℚ) * t.v2⌉)
        (⌊(t.d : ℚ) * t.s1⌋) (⌈(t.d : ℚ) * t.s2⌉)
        t.f t.seed cfg.min_items_per_class = some none) ∧
    runTuple st cfg.min_items_per_class t = some none ∧
    t ∈ stats.failed_instances ∧
    stats.total_attempted = (sweepTuples cfg).length := by
  have hm : 1 ≤ t.m := by
    rcases Nat.eq_zero_or_pos t.m with h0 | h1
    · rw [h0] at hn
      exact absurd hn (by omega)
    · exact h1
  have hdq : (0 : ℚ) ≤ (t.d : ℚ) := by exact_mod_cast hd
  have hwb : (⌊(t.d : ℚ) * t.v1⌋ : Int) ≤ ⌈(t.d : ℚ) * t.v2⌉ :=
    le_trans (Int.floor_le_floor (mul_le_mul_of_nonneg_left hv hdq))
      (Int.floor_le_ceil _)
  have hsb : (⌊(t.d : ℚ) * t.s1⌋ : Int) ≤ ⌈(t.d : ℚ) * t.s2⌉ :=
    le_trans (Int.floor_le_floor (mul_le_mul_of_nonneg_left hs hdq))
      (Int.floor_le_ceil _)
  have hrej : ∀ k : Nat, genAttempt st (t.seed + (k : Int)) t.d t.n t.m
      (⌊(t.d : ℚ) * t.v1⌋) (⌈(t.d : ℚ) * t.v2⌉)
      (⌊(t.d : ℚ) * t.s1⌋) (⌈(t.d : ℚ) * t.s2⌉)
      t.f t.seed cfg.min_items_per_class = some none :=
    fun k => genAttempt_reject hm hwb hsb hn
  have hfail : runTuple st cfg.min_items_per_class t = some none := by
    rw [runTuple, generate_single_instance_eq]
    exact genLoop_none_of_reject hrej max_attempts 0
  rw [generate_instances] at hrun
  split at hrun
  · cases hrun
  · rename_i tot suc fl heqS
    injection hrun with h1
    obtain ⟨htot, hforall⟩ := runSweep_inv heqS
    subst h1
    exact ⟨hrej, hfail, hforall t hmem hfail, htot⟩

/-- Witness for C2 at the concrete infeasible sweep `cfgInfeasible`
(`n = 2`, `m = 5`, `min_items_per_class = 2`, seeds 0 and 1). -/
theorem claim_C2_witness :
    runTuple stId 2 tInfeasible0 = some none ∧
    tInfeasible0 ∈ statsInfeasible.failed_instances ∧
    statsInfeasible.total_attempted = (sweepTuples cfgInfeasible).length := by
  have h := @claim_C2 stId cfgInfeasible tInfeasible0 statsInfeasible
    (by with_unfolding_all decide) (by decide) (by decide)
    (by with_unfolding_all decide) (by with_unfolding_all decide)
    (by with_unfolding_all decide)
  exact ⟨h.2.1, h.2.2.1, h.2.2.2⟩

/-! Claim C3: the serialized file shape. -/

theorem write_instance_lines_eq_spec (inst : Instance)
    (h1 : inst.classes.length = inst.m)
    (h2 : inst.setup_costs.length = inst.m)
    (h3 : inst.setups.length = inst.m)
    (h4 : inst.items = inst.classes.flatten) :
    write_instance_lines inst = fileSpecLines inst := by
  rw [write_instance_lines, fileSpecLines]
  refine congrArg₂ List.cons rfl (congrArg₂ (· ++ ·) ?_ ?_)
  · rw [class_lines,
      classRecords_map_eq inst.classes inst.setup_costs inst.setups
        (h2.trans h1.symm) (h3.trans h1.symm), h1]
  · rw [item_lines, h4, List.map_flatten,
      map_eq_range_map (List.map fun w => toString w ++ "\x0A") ([] : List Int)
        inst.classes, h1]

theorem lines_newline_terminated (inst : Instance) :
    ∀ l ∈ write_instance_lines inst, ∃ s, l = s ++ "\x0A" := by
  intro l hl
  rw [write_instance_lines] at hl
  rcases List.mem_cons.1 hl with h | h
  · exact ⟨_, h⟩
  · rcases List.mem_append.1 h with h' | h'
    · rw [class_lines] at h'
      obtain ⟨r, _, hrl⟩ := List.mem_map.1 h'
      exact ⟨_, hrl.symm⟩
    · rw [item_lines] at h'
      obtain ⟨w, _, hwl⟩ := List.mem_map.1 h'
      exact ⟨_, hwl.symm⟩

/-- C3: every file written for an accepted instance has exactly the claimed
shape: the encoder's output coincides, line by line and as a whole, with the
layout `fileSpecLines`/`fileContentSpec` written from the claim (header of
`n`, `m`, `d`, bin cost; one line per non-empty class in ascending index
order with negated setup cost, setup weight and item count; one item weight
per line grouped by class in ascending index order keeping insertion
order), and every written line is newline-terminated. -/
theorem claim_C3 {st : Int → Nat → Nat} {minI : Nat} {d : Int} {n m : Nat}
    {v1 v2 s1 s2 : ℚ} {f : Nat} {seed : Int} {inst : Instance}
    (h : generate_single_instance st minI d n m v1 v2 s1 s2 f seed =
      some (some inst)) :
    write_instance_file inst = fileContentSpec inst ∧
    write_instance_lines inst = fileSpecLines inst ∧
    (∀ l ∈ write_instance_lines inst, ∃ s, l = s ++ "\x0A") := by
  rw [generate_single_instance_eq] at h
  obtain ⟨k', hk⟩ := genLoop_inv h
  obtain ⟨costs, bc, c0, classes, c1, setups, c2, mn, hcosts, hloop, hsetups, hmn,
    hge, hinst⟩ := genAttempt_inv hk
  obtain ⟨hclen, hf0, hf1⟩ := drawCosts_inv hcosts
  obtain ⟨hlen, hsum, hc1, hmem⟩ := itemLoop_inv (by simp) hloop
  obtain ⟨hslen, hcc2, hsmem⟩ := drawList_inv hsetups
  subst hinst
  have hl := write_instance_lines_eq_spec
    ⟨d, n, m, ⌊(d : ℚ) * v1⌋, ⌈(d : ℚ) * v2⌉, ⌊(d : ℚ) * s1⌋, ⌈(d : ℚ) * s2⌉,
      f, seed, bc, classes, costs, setups, classes.flatten⟩
    hlen hclen hslen rfl
  exact ⟨congrArg concatLines hl, hl, lines_newline_terminated _⟩

/-- Witness for C3 at the accepted instance `instSmall`. -/
theorem claim_C3_witness :
    generate_single_instance stHalf 2 20 4 2 0 (1/2) 0 (1/2) 1 0 =
      some (some instSmall) ∧
    write_instance_file instSmall = fileContentSpec instSmall := by
  have h1 : generate_single_instance stHalf 2 20 4 2 0 (1/2) 0 (1/2) 1 0 =
      some (some instSmall) := by with_unfolding_all rfl
  exact ⟨h1, (claim_C3 h1).1⟩

/-! Claim C4: item weights and setup weights stay inside the derived
bounds. -/

/-- C4: for every accepted instance, every item weight lies in
`[w_min, w_max]` and every setup weight lies in `[s_min, s_max]`, with
`w_min = ⌊d·v1⌋`, `w_max = ⌈d·v2⌉`, `s_min = ⌊d·s1⌋`, `s_max = ⌈d·s2⌉`. -/
theorem claim_C4 {st : Int → Nat → Nat} {minI : Nat} {d : Int} {n m : Nat}
    {v1 v2 s1 s2 : ℚ} {f : Nat} {seed : Int} {inst : Instance}
    (h : generate_single_instance st minI d n m v1 v2 s1 s2 f seed =
      some (some inst)) :
    (∀ w ∈ inst.items, ⌊(d : ℚ) * v1⌋ ≤ w ∧ w ≤ ⌈(d : ℚ) * v2⌉) ∧
    (∀ s ∈ inst.setups, ⌊(d : ℚ) * s1⌋ ≤ s ∧ s ≤ ⌈(d : ℚ) * s2⌉) := by
  rw [generate_single_instance_eq] at h
  obtain ⟨k', hk⟩ := genLoop_inv h
  obtain ⟨costs, bc, c0, classes, c1, setups, c2, mn, hcosts, hloop, hsetups, hmn,
    hge, hinst⟩ := genAttempt_inv hk
  obtain ⟨hlen, hsum, hc1, hmem⟩ := itemLoop_inv (by simp) hloop
  obtain ⟨hslen, hcc2, hsmem⟩ := drawList_inv hsetups
  subst hinst
  constructor
  · intro w hw
    rcases hmem w hw with h' | h'
    · rw [flatten_replicate_nil] at h'
      cases h'
    · exact h'
  · intro s hs
    exact hsmem s hs

/-- Witness for C4 at the accepted instance `instSmall`. -/
theorem claim_C4_witness :
    generate_single_instance stHalf 2 20 4 2 0 (1/2) 0 (1/2) 1 0 =
      some (some instSmall) ∧
    (∀ w ∈ instSmall.items, ⌊(20 : ℚ) * 0⌋ ≤ w ∧ w ≤ ⌈(20 : ℚ) * (1/2)⌉) := by
  have h1 : generate_single_instance stHalf 2 20 4 2 0 (1/2) 0 (1/2) 1 0 =
      some (some instSmall) := by with_unfolding_all rfl
  exact ⟨h1, (claim_C4 h1).1⟩

/-! Claim C5: what actually happens on a malformed configuration. -/

/-- C5 is refuted at a concrete input: `cfgEmptyDim` has an empty
`capacities` dimension list (zero total combinations), yet no configuration
error is surfaced — in the embedding the only error channel is `none`, and
`generate_instances` instead completes normally, returning ordinary
statistics with `total_attempted = 0`. -/
theorem claim_C5_counterexample :
    generate_instances stId cfgEmptyDim = some ⟨0, 0, 0, 0, []⟩ := by
  with_unfolding_all rfl

/-- C5 (amended): the configuration is not validated before generation.  An
empty dimension list yields an empty cross-product and the sweep returns
normal statistics (all counters 0, rate 0) with no error; a fraction pair
whose derived bounds invert (`w_max < w_min`, with at least one item to
draw) is only surfaced when its tuple's first attempt performs the failing
draw, and that error aborts the whole sweep rather than being retried. -/
theorem claim_C5_amended {st st' : Int → Nat → Nat} {cfg cfg' : InstanceConfig}
    {t : ParamTuple} {rest : List ParamTuple}
    (hA : sweepTuples cfg = [])
    (hB1 : sweepTuples cfg' = t :: rest)
    (hB2 : 1 ≤ t.n)
    (hB3 : (⌈(t.d : ℚ) * t.v2⌉ : Int) < ⌊(t.d : ℚ) * t.v1⌋) :
    generate_instances st cfg = some ⟨0, 0, 0, 0, []⟩ ∧
    generate_instances st' cfg' = none := by
  constructor
  · unfold generate_instances
    rw [hA]
    rfl
  · have hatt : ∀ k : Nat, genAttempt st' (t.seed + (k : Int)) t.d t.n t.m
        (⌊(t.d : ℚ) * t.v1⌋) (⌈(t.d : ℚ) * t.v2⌉)
        (⌊(t.d : ℚ) * t.s1⌋) (⌈(t.d : ℚ) * t.s2⌉)
        t.f t.seed cfg'.min_items_per_class = none :=
      fun k => genAttempt_err hB3 hB2
    have hrt : runTuple st' cfg'.min_items_per_class t = none := by
      rw [runTuple, generate_single_instance_eq]
      exact genLoop_none_of_err hatt (by norm_num [max_attempts]) 0
    unfold generate_instances
    simp only [hB1, runSweep, hrt]

/-- Witness for the amended C5 at `cfgEmptyDim` (empty dimension list) and
`cfgBadPair` (item-weight fraction pair `(3/10, 1/20)` at `d = 200`, so
`w_min = 60 > 10 = w_max`). -/
theorem claim_C5_amended_witness :
    sweepTuples cfgEmptyDim = [] ∧
    sweepTuples cfgBadPair = [tBad0] ∧
    generate_instances stId cfgEmptyDim = some ⟨0, 0, 0, 0, []⟩ ∧
    generate_instances stId cfgBadPair = none := by
  have h := @claim_C5_amended stId stId cfgEmptyDim cfgBadPair tBad0 []
    rfl rfl (by decide) (by with_unfolding_all decide)
  exact ⟨rfl, rfl, h.1, h.2⟩

/-! Claim C6: setup costs and bin cost under the two flag values. -/

/-- C6: for every accepted instance, when `f = 0` every setup cost is 0 and
the bin cost is 1; when `f = 1` every setup cost lies in `[1, 5]` and the
bin cost is 10. -/
theorem claim_C6 {st : Int → Nat → Nat} {minI : Nat} {d : Int} {n m : Nat}
    {v1 v2 s1 s2 : ℚ} {f : Nat} {seed : Int} {inst : Instance}
    (h : generate_single_instance st minI d n m v1 v2 s1 s2 f seed =
      some (some inst)) :
    (f = 0 → (∀ x ∈ inst.setup_costs, x = 0) ∧ inst.bin_cost = 1) ∧
    (f = 1 → (∀ x ∈ inst.setup_costs, 1 ≤ x ∧ x ≤ 5) ∧ inst.bin_cost = 10) := by
  rw [generate_single_instance_eq] at h
  obtain ⟨k', hk⟩ := genLoop_inv h
  obtain ⟨costs, bc, c0, classes, c1, setups, c2, mn, hcosts, hloop, hsetups, hmn,
    hge, hinst⟩ := genAttempt_inv hk
  obtain ⟨hclen, hf0, hf1⟩ := drawCosts_inv hcosts
  subst hinst
  constructor
  · intro hf
    obtain ⟨hcs, hbc, _⟩ := hf0 hf
    refine ⟨?_, hbc⟩
    intro x hx
    have hx' : x ∈ costs := hx
    rw [hcs] at hx'
    exact List.eq_of_mem_replicate hx'
  · intro hf
    obtain ⟨hcs, hbc, _⟩ := hf1 (by omega)
    exact ⟨hcs, hbc⟩

/-- Witness for C6 at the accepted instance `instSmall` (`f = 1`). -/
theorem claim_C6_witness :
    generate_single_instance stHalf 2 20 4 2 0 (1/2) 0 (1/2) 1 0 =
      some (some instSmall) ∧
    ((∀ x ∈ instSmall.setup_costs, 1 ≤ x ∧ x ≤ 5) ∧ instSmall.bin_cost = 10) := by
  have h1 : generate_single_instance stHalf 2 20 4 2 0 (1/2) 0 (1/2) 1 0 =
      some (some instSmall) := by with_unfolding_all rfl
  exact ⟨h1, (claim_C6 h1).2 rfl⟩

/-! Claim C7: item counts are conserved. -/

/-- C7: for every accepted instance, the item counts on the class-record
lines sum to `n`, and the file body holds exactly `n` item-weight lines. -/
theorem claim_C7 {st : Int → Nat → Nat} {minI : Nat} {d : Int} {n m : Nat}
    {v1 v2 s1 s2 : ℚ} {f : Nat} {seed : Int} {inst : Instance}
    (h : generate_single_instance st minI d n m v1 v2 s1 s2 f seed =
      some (some inst)) :
    ((classRecords inst.classes inst.setup_costs inst.setups).map
      (fun r => r.2.2)).sum = n ∧
    (item_lines inst).length = n := by
  rw [generate_single_instance_eq] at h
  obtain ⟨k', hk⟩ := genLoop_inv h
  obtain ⟨costs, bc, c0, classes, c1, setups, c2, mn, hcosts, hloop, hsetups, hmn,
    hge, hinst⟩ := genAttempt_inv hk
  obtain ⟨hclen, hf0, hf1⟩ := drawCosts_inv hcosts
  obtain ⟨hlen, hsum, hc1, hmem⟩ := itemLoop_inv (by simp) hloop
  obtain ⟨hslen, hcc2, hsmem⟩ := drawList_inv hsetups
  rw [sum_lengths_replicate_nil] at hsum
  subst hinst
  constructor
  · rw [classRecords_counts_sum classes costs setups
      (hclen.trans hlen.symm) (hslen.trans hlen.symm)]
    omega
  · rw [item_lines, List.length_map]
    show classes.flatten.length = n
    rw [List.length_flatten]
    omega

/-- Witness for C7 at the accepted instance `instSmall` (`n = 4`). -/
theorem claim_C7_witness :
    generate_single_instance stHalf 2 20 4 2 0 (1/2) 0 (1/2) 1 0 =
      some (some instSmall) ∧
    ((classRecords instSmall.classes instSmall.setup_costs instSmall.setups).map
      (fun r => r.2.2)).sum = 4 ∧
    (item_lines instSmall).length = 4 := by
  have h1 : generate_single_instance stHalf 2 20 4 2 0 (1/2) 0 (1/2) 1 0 =
      some (some instSmall) := by with_unfolding_all rfl
  exact ⟨h1, (claim_C7 h1).1, (claim_C7 h1).2⟩

/-! Claim C8: determinism of one builder invocation. -/

/-- C8: the builder's observable output — success or failure, and on
success the filename and the byte-exact file content — is a function of the
PRNG stream, the parameter tuple and `min_items_per_class` alone: two
invocations agreeing on those (the configurations may differ elsewhere,
e.g. in the output directory) produce identical results. -/
theorem claim_C8 {st : Int → Nat → Nat} {c1 c2 : InstanceConfig}
    (h : c1.min_items_per_class = c2.min_items_per_class)
    (d : Int) (n m : Nat) (v1 v2 s1 s2 : ℚ) (f : Nat) (seed : Int) :
    build_output st c1.min_items_per_class d n m v1 v2 s1 s2 f seed =
      build_output st c2.min_items_per_class d n m v1 v2 s1 s2 f seed := by
  rw [h]

/-- Witness for C8: `cfgSmall` and `cfgSmallAlt` differ only in their output
directory. -/
theorem claim_C8_witness :
    cfgSmall.min_items_per_class = cfgSmallAlt.min_items_per_class ∧
    build_output stHalf cfgSmall.min_items_per_class 20 4 2 0 (1/2) 0 (1/2) 1 0 =
      build_output stHalf cfgSmallAlt.min_items_per_class 20 4 2 0 (1/2) 0 (1/2) 1 0 :=
  ⟨rfl, claim_C8 rfl 20 4 2 0 (1/2) 0 (1/2) 1 0⟩

/-! Claim C9: number of class-record lines. -/

/-- C9: when `min_items_per_class ≥ 1`, every accepted instance's file has
exactly `m` class-record lines — the acceptance test leaves no empty class,
so the encoder's omission of empty classes never removes a line. -/
theorem claim_C9 {st : Int → Nat → Nat} {minI : Nat} {d : Int} {n m : Nat}
    {v1 v2 s1 s2 : ℚ} {f : Nat} {seed : Int} {inst : Instance}
    (hmin : 1 ≤ minI)
    (h : generate_single_instance st minI d n m v1 v2 s1 s2 f seed =
      some (some inst)) :
    (class_lines inst).length = m := by
  rw [generate_single_instance_eq] at h
  obtain ⟨k', hk⟩ := genLoop_inv h
  obtain ⟨costs, bc, c0, classes, c1, setups, c2, mn, hcosts, hloop, hsetups, hmn,
    hge, hinst⟩ := genAttempt_inv hk
  obtain ⟨hclen, hf0, hf1⟩ := drawCosts_inv hcosts
  obtain ⟨hlen, hsum, hc1, hmem⟩ := itemLoop_inv (by simp) hloop
  obtain ⟨hslen, hcc2, hsmem⟩ := drawList_inv hsetups
  subst hinst
  have hne : ∀ c ∈ classes, ¬c.isEmpty := by
    intro c hc hemp
    have hcnt := minNat?_le hmn c.length (List.mem_map_of_mem List.length hc)
    rw [List.isEmpty_iff] at hemp
    rw [hemp] at hcnt
    simp at hcnt
    omega
  rw [class_lines, List.length_map,
    classRecords_length_of_nonempty classes costs setups
      (hclen.trans hlen.symm) (hslen.trans hlen.symm) hne]
  exact hlen

/-- Witness for C9 at the accepted instance `instSmall` (`m = 2`). -/
theorem claim_C9_witness :
    (1 : Nat) ≤ 2 ∧
    generate_single_instance stHalf 2 20 4 2 0 (1/2) 0 (1/2) 1 0 =
      some (some instSmall) ∧
    (class_lines instSmall).length = 2 := by
  have h1 : generate_single_instance stHalf 2 20 4 2 0 (1/2) 0 (1/2) 1 0 =
      some (some instSmall) := by with_unfolding_all rfl
  exact ⟨by decide, h1, claim_C9 (by decide) h1⟩

/-! Claim C10: the aggregated statistics. -/

/-- C10: every completed sweep returns statistics whose `success_rate`
equals `successful / total_attempted * 100`, and 0 when
`total_attempted = 0`. -/
theorem claim_C10 {st : Int → Nat → Nat} {cfg : InstanceConfig} {stats : GenStats}
    (h : generate_instances st cfg = some stats) :
    stats.success_rate = (if 0 < stats.total_attempted
      then (stats.successful : ℚ) / (stats.total_attempted : ℚ) * 100 else 0) := by
  unfold generate_instances at h
  split at h
  · cases h
  · rename_i tot suc fl heq
    injection h with h1
    subst h1
    rfl

/-- Witness for C10: the three-combination sweep `cfgThree` with exactly one
infeasible combination reports `total_attempted = 3`, `successful = 2`,
`failed = 1` and `success_rate = 200/3 ≈ 66.67`. -/
theorem claim_C10_witness :
    generate_instances stId cfgThree = some statsThree ∧
    statsThree.success_rate = (if 0 < statsThree.total_attempted
      then (statsThree.successful : ℚ) / (statsThree.total_attempted : ℚ) * 100
      else 0) ∧
    |statsThree.success_rate - 6667/100| < 1/100 := by
  have h1 : generate_instances stId cfgThree = some statsThree := by
    with_unfolding_all decide
  exact ⟨h1, claim_C10 h1, by with_unfolding_all decide⟩

end BPPS
